import Mathlib

/-!
Verification of the `pipeline` tool (interactive shell-pipeline previewer)
against its design document.  The Lean definitions below are a shallow
embedding of the Go source: the layout engine `getBufferLinesToShow`, the
bounded input buffer `buffer` with its `Write` method, the evaluator
`processPipeline`, the exit paths of `main`, and the backspace handling of
the input loop.  Go slices of runes become `List Char`, byte slices become
`List Nat`, Go `int` values that can go negative become `Int`, and the
`for` loops become fueled structural recursions whose fuel is the loop's
termination measure (the fuel supplied by each wrapper is provably enough,
so the fueled function agrees with the Go loop on every input on which the
Go loop terminates).
-/

namespace Pipeline

/-- Tab stop width, from `const TabWidth = 4`. -/
def TabWidth : Nat := 4

/-- Tab expansion step of `getBufferLinesToShow`: each `\t` is replaced by
`TabWidth - len(expandedLine) % TabWidth` spaces, every other rune is kept. -/
def expandTabs (line : List Char) : List Char :=
  line.foldl
    (fun acc c =>
      if c = '\t' then acc ++ List.replicate (TabWidth - acc.length % TabWidth) ' '
      else acc ++ [c])
    []

/-- The inner backward scan of `getBufferLinesToShow`: starting at index `i`
and walking down while `i >= 0 && i > len(rs)-cols`, return the first index
holding a newline, `-1` when none is found.  The fuel bounds the number of
steps; `findLastNewline` passes `rs.length`, which covers every index the
loop can visit. -/
def findFrom : Nat → List Char → Nat → Int → Int
  | 0, _, _, _ => -1
  | fuel + 1, rs, cols, i =>
    if 0 ≤ i ∧ (rs.length : Int) - (cols : Int) < i then
      if rs.getD i.toNat ' ' = '\n' then i
      else findFrom fuel rs cols (i - 1)
    else -1

/-- The `lastNewline` computation of `getBufferLinesToShow`, which scans
backward from the last index of `rs`. -/
def findLastNewline (rs : List Char) (cols : Nat) : Int :=
  findFrom rs.length rs cols ((rs.length : Int) - 1)

/-- The piece-splitting loop of `getBufferLinesToShow`: while the line is
longer than `cols`, prepend its first `cols` runes to the accumulator and
drop them; finally prepend the nonempty remainder.  Pieces therefore come
out last-piece-first, exactly as in the source.  With `cols = 0` the Go
loop never terminates; here the fuel (one unit per iteration, `line.length`
is enough for `cols ≥ 1`) runs out instead. -/
def pieceLoopRev : Nat → List Char → Nat → List (List Char) → List (List Char)
  | 0, _, _, acc => acc
  | fuel + 1, line, cols, acc =>
    if cols < line.length then
      pieceLoopRev fuel (line.drop cols) cols (line.take cols :: acc)
    else if 0 < line.length then line :: acc
    else acc

/-- `linePieces` of one logical line: an empty line yields exactly one empty
piece, otherwise the line is cut by `pieceLoopRev`. -/
def linePiecesRev (line : List Char) (cols : Nat) : List (List Char) :=
  if line.length = 0 then [[]] else pieceLoopRev line.length line cols []

/-- The outer loop of `getBufferLinesToShow`: while `linesToRender >= 0`
and runes remain, find the last newline inside the scan window, cut off the
trailing logical line, expand its tabs, split it into pieces appended to
`linesInReverse`, and continue on the prefix before the newline.  Each
iteration strictly shortens `rs`, so fuel `rs.length + 1` is enough. -/
def gblLoop : Nat → List Char → Nat → Int → List (List Char) → List (List Char)
  | 0, _, _, _, acc => acc
  | fuel + 1, rs, cols, linesToRender, acc =>
    if 0 ≤ linesToRender ∧ rs ≠ [] then
      let lastNewline := findLastNewline rs cols
      let totalLine := if lastNewline = -1 then rs else rs.drop (lastNewline.toNat + 1)
      let pieces := linePiecesRev (expandTabs totalLine) cols
      let rs2 := if lastNewline = -1 then [] else rs.take lastNewline.toNat
      gblLoop fuel rs2 cols (linesToRender - pieces.length) (acc ++ pieces)
    else acc

/-- The layout function `getBufferLinesToShow(rows, cols, skipFromEnd, data)`
of the source: run the backward scan with `linesToRender = rows+skipFromEnd-1`
initial budget, then emit `linesInReverse` reversed, skipping the last
`skipFromEnd` scanned pieces. -/
def getBufferLinesToShow (rows cols skipFromEnd : Nat) (data : String) : List (List Char) :=
  let rs := data.toList
  let linesInReverse := gblLoop (rs.length + 1) rs cols ((rows : Int) + (skipFromEnd : Int) - 1) []
  (List.range (linesInReverse.length - skipFromEnd)).map
    (fun i => linesInReverse.getD (linesInReverse.length - i - 1) [])

/-- Sanity: test case 2 of `TestGetBufferLinesToShow`. -/
theorem gbl_case_two_short :
    getBufferLinesToShow 3 20 0 ("two short\nlines") =
      [("two short").toList, ("lines").toList] := by decide

/-- Sanity: test case 3 of `TestGetBufferLinesToShow` (a 44-rune line wraps
into three pieces, oldest piece first). -/
theorem gbl_case_long_line :
    getBufferLinesToShow 3 20 0 ("one long line that is past the 20 char limit") =
      [("one long line that i").toList, ("s past the 20 char l").toList,
        ("imit").toList] := by decide

/-- Sanity: test case 5 of `TestGetBufferLinesToShow` (only newlines). -/
theorem gbl_case_only_newlines :
    getBufferLinesToShow 3 20 0 ("\n\n") = [[], []] := by decide

/-- Sanity: test case 6 of `TestGetBufferLinesToShow` (more lines than fit:
the three most recent are shown). -/
theorem gbl_case_too_many :
    getBufferLinesToShow 3 20 0 ("too\nmany\nlines\nto\nshow") =
      [("lines").toList, ("to").toList, ("show").toList] := by decide

/-- Sanity: the tab case of the newer `TestGetBufferLinesToShow`. -/
theorem gbl_case_tabs :
    getBufferLinesToShow 3 20 0 ("\tone tab\nk\ttwo tab\n") =
      [("    one tab").toList, ("k   two tab").toList, []] := by decide

/-- Sanity: `TestGetBufferLinesToShowScroll`, skipping the two most recent
lines. -/
theorem gbl_case_scroll :
    getBufferLinesToShow 3 20 2 ("too\nmany\nlines\nto\nshow") =
      [("too").toList, ("many").toList, ("lines").toList] := by decide

/-! ## The bounded input buffer

The Go struct `buffer` holds a mutex, a dirty flag, a `bytes.Buffer` and a
`buffersize` cap.  Its contents are modelled as a list of byte values; the
field named `buffer` in the source is called `buf` here (a structure field
cannot shadow the structure name). -/

/-- The `buffer` struct of the source (minus the mutex, whose lock/unlock
structure is modelled separately as `writeOps` etc. below). -/
structure buffer where
  dirty : Bool
  buf : List Nat
  buffersize : Int

/-- The `Write` method of `buffer`: compute
`overage = buffersize - (len(buffer)+len(data))`, drop `overage` bytes from
the front when `overage > 0` (`bytes.Buffer.Next` discards at most the
buffer's length), append `data`, and set `dirty` when any byte was written.
`bytes.Buffer.Write` always succeeds returning `len(data)`. -/
def buffer.Write (b : buffer) (data : List Nat) : buffer × Nat :=
  let overage : Int := b.buffersize - ((b.buf.length : Int) + (data.length : Int))
  let b1 := if 0 < overage then { b with buf := b.buf.drop overage.toNat } else b
  let n := data.length
  ({ b1 with buf := b1.buf ++ data, dirty := b1.dirty || decide (n ≠ 0) }, n)

/-! ## The mutex discipline of the buffer methods

Each method of `buffer` is abstracted to the sequence of atomic actions it
performs on the shared state: mutex acquire/release and reads/writes of the
byte storage and the dirty flag.  The sequences are read off the method
bodies line by line. -/

/-- Atomic actions a `buffer` method performs on the shared state. -/
inductive BufOp where
  | lock | unlock | readBuf | writeBuf | readDirty | writeDirty
deriving DecidableEq

/-- Whether an action touches the shared data (everything except the mutex
operations themselves). -/
def BufOp.isAccess : BufOp → Bool
  | .readBuf | .writeBuf | .readDirty | .writeDirty => true
  | _ => false

/-- Actions of `buffer.Write`: `Lock`, read the length, `Next`, `Write`,
read-modify-write the dirty flag, deferred `Unlock`. -/
def writeOps : List BufOp :=
  [.lock, .readBuf, .writeBuf, .writeBuf, .readDirty, .writeDirty, .unlock]

/-- Actions of `buffer.String`: it reads the shared `bytes.Buffer` without
taking the mutex. -/
def stringOps : List BufOp := [.readBuf]

/-- Actions of `buffer.Bytes`: also an unlocked read of the shared storage. -/
def bytesOps : List BufOp := [.readBuf]

/-- Actions of `buffer.Dirty`: `Lock`, read the flag, deferred `Unlock`. -/
def dirtyOps : List BufOp := [.lock, .readDirty, .unlock]

/-- Actions of `buffer.Clean`: `Lock`, clear the flag, deferred `Unlock`. -/
def cleanOps : List BufOp := [.lock, .writeDirty, .unlock]

/-- Starting from lock depth `d`, check that every shared-state access in
the action list happens while the mutex is held. -/
def guardedFrom : Nat → List BufOp → Bool
  | _, [] => true
  | d, .lock :: rest => guardedFrom (d + 1) rest
  | d, .unlock :: rest => guardedFrom (d - 1) rest
  | d, _ :: rest => decide (0 < d) && guardedFrom d rest

/-- An operation is mutually exclusive with the others exactly when all of
its shared accesses are performed under the mutex. -/
def mutexGuarded (t : List BufOp) : Bool := guardedFrom 0 t

/-! ## The pipeline evaluator

`processPipeline` owns four byte buffers; their contents are modelled as
strings (the code itself moves between `bytes.Buffer` and `string` via
`String()` and `Fprint`).  The field `inbuf` holds the contents the input
buffer snapshot returns at evaluation time (the evaluator only ever calls
`p.inbuf.String()`).  Running the external command is out of scope, so an
evaluation takes the collaborator's result — captured stdout, captured
stderr, and whether `cmd.Run` reported success — as an argument. -/

/-- The `pipeline` struct of the source; buffer pointers become the
buffers' contents. -/
structure pipeline where
  inbuf : String
  outbuf : String
  showbuf : String
  errbuf : String
  lastLine : String

/-- Result of the command-execution collaborator: what `cmd.Run` leaves in
`cmd.Stdout` and `cmd.Stderr`, and whether it returned a nil error. -/
structure RunResult where
  stdout : String
  stderr : String
  success : Bool

/-- The `processPipeline` method: record `lastLine`, truncate `outbuf` and
`errbuf`; an empty line copies the input snapshot into `outbuf` and swaps
unconditionally (`fmt.Fprint` into a `bytes.Buffer` cannot fail, so the
returned error is nil); otherwise the command's stdout and stderr land in
`outbuf` and `errbuf`, and `outbuf`/`showbuf` are swapped only when the
collaborator reports success.  The second component is `true` exactly when
the method returns a nil error. -/
def processPipeline (p : pipeline) (line : String) (run : RunResult) : pipeline × Bool :=
  let p1 := { p with lastLine := line, outbuf := "", errbuf := "" }
  if line = "" then
    let p2 := { p1 with outbuf := p.inbuf }
    ({ p2 with outbuf := p2.showbuf, showbuf := p2.outbuf }, true)
  else
    let p2 := { p1 with outbuf := run.stdout, errbuf := run.stderr }
    if run.success then
      ({ p2 with outbuf := p2.showbuf, showbuf := p2.outbuf }, true)
    else (p2, false)

/-! ## The exit paths of `main` -/

/-- What the deferred block at the end of `main` writes to standard output:
`io.Copy(os.Stdout, p.outbuf)` when `gracefulExit && !<-errorCh`, nothing
otherwise (the process then exits 1). -/
def acceptanceStdout (p : pipeline) (gracefulExit processError : Bool) : String :=
  if gracefulExit && !processError then p.outbuf else ""

/-- The keys that end the event loop: `KeyEnter` accepts, `KeyEsc` and
`KeyCtrlC` cancel. -/
inductive ExitKey where
  | enter | esc | ctrlC
deriving DecidableEq

/-- `gracefulExit` after the event loop: only `KeyEnter` sets it. -/
def gracefulExitOf : ExitKey → Bool
  | .enter => true
  | .esc => false
  | .ctrlC => false

/-- The process exit status: `log.Fatalf` on a terminal I/O failure calls
`os.Exit(1)`; otherwise the deferred block exits 1 unless
`gracefulExit && !<-errorCh` (where `errorCh` carries whether the last
evaluation failed), in which case `main` returns normally with status 0. -/
def exitStatus (k : ExitKey) (lastEvalError fatalIOError : Bool) : Nat :=
  if fatalIOError then 1
  else if gracefulExitOf k && !lastEvalError then 0 else 1

/-! ## Backspace handling in the event loop -/

/-- The `KeyBackspace` case of the event loop.  `lineBuffer` is a Go string,
i.e. a byte sequence, modelled as a list of byte values;
`lineBuffer[:cursor-1] + lineBuffer[cursor:]` drops the single byte at
index `cursor-1`. -/
def backspace (lineBuffer : List Nat) (cursor : Nat) : List Nat × Nat :=
  if cursor ≠ 0 then
    (lineBuffer.take (cursor - 1) ++ lineBuffer.drop cursor, cursor - 1)
  else (lineBuffer, cursor)

/-! ## The final two-result layout function, modelled from the spec

The newest revision of the layout engine — the one exercised by
`render_test.go`, which calls `getBufferLinesToShow` expecting two results
(`rs, _ := getBufferLinesToShow(3, 20, 0, tc.in)`) — is not among the
source files; only its test is.  The single-result function above neither
clamps the scroll offset nor returns it.  The definitions in this section
therefore model the missing function from §4.2 of the design document. -/

/-- Modelled from the spec: step 2 of the layout algorithm of the missing
two-result `getBufferLinesToShow` — split the content at every newline into
logical lines (here in natural order; the spec's backward scan enumerates
the same segments most-recent-first). -/
def splitOnNl (content : List Char) : List (List Char) :=
  content.foldr
    (fun c acc =>
      if c = '\n' then [] :: acc
      else
        match acc with
        | [] => [[c]]
        | h :: t => (c :: h) :: t)
    [[]]

/-- Modelled from the spec: the logical lines the backward scan of the
missing layout function visits.  Scanning backward and cutting at each
newline yields one segment per newline plus the trailing segment, i.e. all
forward-split segments except a leading empty one (the scan stops when the
remaining text becomes empty); this also gives the spec's stated edge
cases — empty content yields no rows, and content of only newlines yields
exactly that many empty rows. -/
def logicalLines (content : List Char) : List (List Char) :=
  match splitOnNl content with
  | [] :: rest => rest
  | ls => ls

/-- Modelled from the spec: step 4 — wrap one expanded logical line into
pieces of at most `cols` code points, in natural order; an empty logical
line yields exactly one empty piece.  Fueled like `pieceLoopRev`. -/
def wrapPieces : Nat → List Char → Nat → List (List Char)
  | 0, line, _ => [line]
  | fuel + 1, line, cols =>
    if cols < line.length then line.take cols :: wrapPieces fuel (line.drop cols) cols
    else [line]

/-- Modelled from the spec: wrapping of one logical line (empty line → one
empty piece). -/
def wrapLine (line : List Char) (cols : Nat) : List (List Char) :=
  if line.length = 0 then [[]] else wrapPieces line.length line cols

/-- Modelled from the spec: all wrapped pieces of the content in
top-to-bottom order (`totalWrappedLines` is the length of this list).  The
spec's step 5 stops the scan once `rows + scrollFromEnd` pieces exist; the
returned window is unaffected by computing the full list, and step 6 needs
the total anyway. -/
def allPieces (content : List Char) (cols : Nat) : List (List Char) :=
  ((logicalLines content).map (fun l => wrapLine (expandTabs l) cols)).flatten

/-- Modelled from the spec: the missing two-result layout function
`layout(content, rows, cols, scrollFromEnd) → (displayRows, effectiveScroll)`
of §4.2.  Steps 6 and 7: clamp `scrollFromEnd` down to
`max(0, totalPieces - rows)` when fewer pieces exist than
`rows + scrollFromEnd` (natural subtraction provides the `max 0`), drop the
last `effectiveScroll` pieces, return the last `rows` of what remains in
natural order together with the clamped scroll value. -/
def layoutSpec (content : String) (rows cols scrollFromEnd : Nat) :
    List (List Char) × Nat :=
  let pieces := allPieces content.toList cols
  let total := pieces.length
  let eff := if total < rows + scrollFromEnd then total - rows else scrollFromEnd
  let upto := pieces.take (total - eff)
  (upto.drop (upto.length - rows), eff)

/-- Sanity: the tab case of the newer `TestGetBufferLinesToShow`, on the
modelled layout (same rows as the single-result function). -/
theorem layoutSpec_case_tabs :
    layoutSpec ("\tone tab\nk\ttwo tab\n") 3 20 0 =
      ([("    one tab").toList, ("k   two tab").toList, []], 0) := by decide

/-- Sanity: `TestGetBufferLinesToShowScroll` on the modelled layout. -/
theorem layoutSpec_case_scroll :
    layoutSpec ("too\nmany\nlines\nto\nshow") 3 20 2 =
      ([("too").toList, ("many").toList, ("lines").toList], 2) := by decide

/-- Sanity: spec edge cases — empty content gives an empty row set, and
newline-only content gives that many empty rows. -/
theorem layoutSpec_edge_cases :
    layoutSpec ("") 3 20 0 = ([], 0) ∧ layoutSpec ("\n\n") 3 20 0 = ([[], []], 0) := by
  decide

/-! ## Claim theorems -/

/-- C1 (code bug): on graceful acceptance the deferred block copies
`p.outbuf` — which after the final successful swap holds the PREVIOUS
shown contents — to standard output, not the shown-output buffer.  In the
session below, input `"hi"` arrives and the empty command line is evaluated
once, successfully: the shown-output buffer is `"hi"`, yet acceptance
writes the empty string.  This contradicts the spec (§6: standard output is
the shown-output buffer byte-for-byte) and the README (accepting pipes the
watched output to the next stage). -/
theorem acceptance_stdout_mismatch :
    (processPipeline ⟨("hi"), (""), (""), (""), ("")⟩ ("") ⟨(""), (""), true⟩).2 = true ∧
    (processPipeline ⟨("hi"), (""), (""), (""), ("")⟩ ("") ⟨(""), (""), true⟩).1.showbuf
      = ("hi") ∧
    acceptanceStdout
      (processPipeline ⟨("hi"), (""), (""), (""), ("")⟩ ("") ⟨(""), (""), true⟩).1
      true false = ("") ∧
    acceptanceStdout
      (processPipeline ⟨("hi"), (""), (""), (""), ("")⟩ ("") ⟨(""), (""), true⟩).1
      true false ≠
    (processPipeline ⟨("hi"), (""), (""), (""), ("")⟩ ("") ⟨(""), (""), true⟩).1.showbuf := by
  refine ⟨rfl, rfl, rfl, ?_⟩
  decide

/-- C2 (code bug): the overage computation in `buffer.Write` has its sign
flipped (`buffersize - (len+new)` instead of `(len+new) - buffersize`), so
the buffer trims the OLDEST bytes precisely when there is still room, and
never trims when the write overflows the cap.  With capacity 2, writing the
3 bytes `[1,2,3]` leaves all 3 bytes (the claim says the last 2, with
`len ≤ capacity`); with capacity 10, writing `[1,2,3]` and then `[4,5]`
discards the first chunk entirely and leaves `[4,5]` (the claim says
`[1,2,3,4,5]`). -/
theorem buffer_write_retention_violation :
    ((buffer.Write ⟨false, [], 2⟩ [1, 2, 3]).1.buf = [1, 2, 3] ∧
      ¬ (buffer.Write ⟨false, [], 2⟩ [1, 2, 3]).1.buf.length ≤ 2) ∧
    (buffer.Write (buffer.Write ⟨false, [], 10⟩ [1, 2, 3]).1 [4, 5]).1.buf = [4, 5] := by
  refine ⟨⟨rfl, ?_⟩, rfl⟩
  decide

/-- C6: for a non-empty command line whose execution fails, `processPipeline`
leaves the shown-output buffer untouched and reports failure; and a failing
evaluation followed by a successful one leaves the shown-output buffer equal
to the second command's entire captured output, with success reported. -/
theorem processPipeline_failure_preserves_shown
    (p : pipeline) (line line2 : String) (r1 r2 : RunResult)
    (hline : line ≠ "") (hfail : r1.success = false)
    (hline2 : line2 ≠ "") (hok : r2.success = true) :
    (processPipeline p line r1).1.showbuf = p.showbuf ∧
    (processPipeline p line r1).2 = false ∧
    (processPipeline (processPipeline p line r1).1 line2 r2).1.showbuf = r2.stdout ∧
    (processPipeline (processPipeline p line r1).1 line2 r2).2 = true := by
  simp [processPipeline, hline, hline2, hfail, hok]

/-- C6 witness: a concrete failing evaluation followed by a concrete
successful one. -/
theorem processPipeline_failure_preserves_shown_witness :
    (processPipeline ⟨("in"), ("o"), ("shown"), ("e"), ("l")⟩ ("badcmd")
        ⟨("partial"), ("oops"), false⟩).1.showbuf = ("shown") ∧
    (processPipeline ⟨("in"), ("o"), ("shown"), ("e"), ("l")⟩ ("badcmd")
        ⟨("partial"), ("oops"), false⟩).2 = false ∧
    (processPipeline
        (processPipeline ⟨("in"), ("o"), ("shown"), ("e"), ("l")⟩ ("badcmd")
          ⟨("partial"), ("oops"), false⟩).1
        ("goodcmd") ⟨("out2"), (""), true⟩).1.showbuf = ("out2") ∧
    (processPipeline
        (processPipeline ⟨("in"), ("o"), ("shown"), ("e"), ("l")⟩ ("badcmd")
          ⟨("partial"), ("oops"), false⟩).1
        ("goodcmd") ⟨("out2"), (""), true⟩).2 = true := by
  have h := processPipeline_failure_preserves_shown
    ⟨("in"), ("o"), ("shown"), ("e"), ("l")⟩ ("badcmd") ("goodcmd")
    ⟨("partial"), ("oops"), false⟩ ⟨("out2"), (""), true⟩
    (by decide) rfl (by decide) rfl
  exact h

/-- C7: evaluating the empty command line copies the input buffer's current
snapshot verbatim into the shown-output buffer (via the unconditional swap)
and reports success, whatever the collaborator would have returned — the
identity stage never invokes it and never fails. -/
theorem processPipeline_empty_line_identity (p : pipeline) (r : RunResult) :
    (processPipeline p ("") r).1.showbuf = p.inbuf ∧
    (processPipeline p ("") r).2 = true := by
  simp [processPipeline]

/-- C8: the process exits 0 exactly when the loop ended on the acceptance
key (`Enter`) with the last evaluation not an error and no fatal terminal
I/O failure; cancellation (`Esc`/`Ctrl-C`), acceptance after a failed last
evaluation, and fatal terminal I/O failure all exit 1. -/
theorem exitStatus_spec (k : ExitKey) (e f : Bool) :
    (exitStatus k e f = 0 ↔ k = ExitKey.enter ∧ e = false ∧ f = false) ∧
    exitStatus ExitKey.esc e f = 1 ∧
    exitStatus ExitKey.ctrlC e f = 1 ∧
    exitStatus k true f = 1 ∧
    exitStatus k e true = 1 := by
  cases k <;> cases e <;> cases f <;> decide

/-- C9 counterexample: not every buffer operation is performed under the
mutex — `buffer.String` (the snapshot operation) reads the shared storage
without locking, so the four operations are not all mutually exclusive as
the claim states. -/
theorem buffer_ops_not_all_guarded :
    ¬ (mutexGuarded writeOps = true ∧ mutexGuarded stringOps = true ∧
        mutexGuarded dirtyOps = true ∧ mutexGuarded cleanOps = true) := by
  decide

/-- C9 (amended): `Write`, `Dirty` and `Clean` perform all their
shared-state accesses under the mutex, but `String` (snapshot) and `Bytes`
read the shared storage with no lock at all, so snapshots are not
synchronized against concurrent writes. -/
theorem buffer_ops_guarded_amended :
    mutexGuarded writeOps = true ∧ mutexGuarded dirtyOps = true ∧
    mutexGuarded cleanOps = true ∧ mutexGuarded stringOps = false ∧
    mutexGuarded bytesOps = false := by
  decide

/-- C10: a backspace with the cursor at 0 changes nothing; with the cursor
positive (and within the line) it removes exactly the one byte immediately
before the cursor and decrements the cursor — byte-wise, so a multi-byte
code point before the cursor loses only its last byte. -/
theorem backspace_spec (lineBuffer : List Nat) (cursor : Nat) :
    (cursor = 0 → backspace lineBuffer cursor = (lineBuffer, cursor)) ∧
    (0 < cursor → cursor ≤ lineBuffer.length →
      (backspace lineBuffer cursor).1 = lineBuffer.eraseIdx (cursor - 1) ∧
      (backspace lineBuffer cursor).1.length + 1 = lineBuffer.length ∧
      (backspace lineBuffer cursor).2 = cursor - 1) := by
  constructor
  · intro h
    simp [backspace, h]
  · intro h1 h2
    have hne : cursor ≠ 0 := Nat.pos_iff_ne_zero.mp h1
    refine ⟨?_, ?_, ?_⟩
    · simp only [backspace, if_pos hne]
      rw [List.eraseIdx_eq_take_drop_succ]
      have : cursor - 1 + 1 = cursor := Nat.succ_pred_eq_of_pos h1
      rw [this]
    · simp only [backspace, if_pos hne, List.length_append, List.length_take,
        List.length_drop]
      omega
    · simp [backspace, hne]

/-- C10 witness: deleting at cursor 2 inside the two-byte encoding of `é`
(bytes 195, 169) removes only the byte 169; cursor 0 is a no-op. -/
theorem backspace_spec_witness :
    (backspace [195, 169] 2).1 = [195] ∧ (backspace [195, 169] 2).2 = 1 ∧
    backspace [10, 20] 0 = ([10, 20], 0) := by
  have h2 := (backspace_spec [195, 169] 2).2 (by decide) (by decide)
  exact ⟨h2.1, h2.2.2, (backspace_spec [10, 20] 0).1 rfl⟩

/-! ## Width and row-count facts about `getBufferLinesToShow` -/

/-- Every piece produced by `pieceLoopRev` is at most `cols` runes long
(chunks have exactly `cols` runes, the remainder at most `cols`). -/
theorem pieceLoopRev_width (fuel : Nat) :
    ∀ (line : List Char) (cols : Nat) (acc : List (List Char)),
      (∀ l ∈ acc, l.length ≤ cols) →
      ∀ l ∈ pieceLoopRev fuel line cols acc, l.length ≤ cols := by
  induction fuel with
  | zero =>
    intro line cols acc hacc l hl
    exact hacc l hl
  | succ n ih =>
    intro line cols acc hacc l hl
    simp only [pieceLoopRev] at hl
    by_cases h1 : cols < line.length
    · rw [if_pos h1] at hl
      refine ih (line.drop cols) cols (line.take cols :: acc) ?_ l hl
      intro m hm
      rcases List.mem_cons.mp hm with hm | hm
      · subst hm
        simp [List.length_take]
      · exact hacc m hm
    · rw [if_neg h1] at hl
      by_cases h2 : 0 < line.length
      · rw [if_pos h2] at hl
        rcases List.mem_cons.mp hl with hl | hl
        · subst hl
          omega
        · exact hacc l hl
      · rw [if_neg h2] at hl
        exact hacc l hl

/-- Every piece of one logical line is at most `cols` runes long. -/
theorem linePiecesRev_width (line : List Char) (cols : Nat) :
    ∀ l ∈ linePiecesRev line cols, l.length ≤ cols := by
  unfold linePiecesRev
  by_cases h : line.length = 0
  · rw [if_pos h]
    intro l hl
    rcases List.mem_cons.mp hl with hl | hl
    · subst hl; simp
    · simp at hl
  · rw [if_neg h]
    exact pieceLoopRev_width line.length line cols [] (by intro m hm; simp at hm)

/-- Every piece the outer scan accumulates is at most `cols` runes long. -/
theorem gblLoop_width (fuel : Nat) :
    ∀ (rs : List Char) (cols : Nat) (ltr : Int) (acc : List (List Char)),
      (∀ l ∈ acc, l.length ≤ cols) →
      ∀ l ∈ gblLoop fuel rs cols ltr acc, l.length ≤ cols := by
  induction fuel with
  | zero =>
    intro rs cols ltr acc hacc l hl
    exact hacc l hl
  | succ n ih =>
    intro rs cols ltr acc hacc l hl
    simp only [gblLoop] at hl
    by_cases h : 0 ≤ ltr ∧ rs ≠ []
    · rw [if_pos h] at hl
      refine ih _ cols _ _ ?_ l hl
      intro m hm
      rcases List.mem_append.mp hm with hm | hm
      · exact hacc m hm
      · exact linePiecesRev_width _ cols m hm
    · rw [if_neg h] at hl
      exact hacc l hl

/-- A `getD` with an empty-list default of a list of short rows is short. -/
theorem getD_length_le (L : List (List Char)) (cols n : Nat)
    (h : ∀ l ∈ L, l.length ≤ cols) : (L.getD n []).length ≤ cols := by
  induction L generalizing n with
  | nil => simp [List.getD]
  | cons a t ih =>
    cases n with
    | zero => simpa [List.getD] using h a (by simp)
    | succ m =>
      have : (a :: t).getD (m + 1) [] = t.getD m [] := by simp [List.getD]
      rw [this]
      exact ih m (fun l hl => h l (by simp [hl]))

/-- C3 counterexample: with one row of three columns, the content
`"abcdef"` is a single logical line that wraps into two pieces, and BOTH
are returned — `layout(C, 1, 3, 0)` yields 2 display rows, more than
`rows = 1`. -/
theorem getBufferLinesToShow_rowcount_exceeds :
    ¬ (getBufferLinesToShow 1 3 0 ("abcdef")).length ≤ 1 := by
  decide

/-- C3 (amended): every display row returned by
`getBufferLinesToShow(rows, cols, skip, data)` contains at most `cols` code
points; the number of returned rows however can exceed `rows`, because all
wrapped pieces of the last logical line scanned are kept even when they
overshoot the remaining row budget. -/
theorem getBufferLinesToShow_row_width_le (rows cols skipFromEnd : Nat)
    (data : String) :
    ∀ l ∈ getBufferLinesToShow rows cols skipFromEnd data, l.length ≤ cols := by
  intro l hl
  unfold getBufferLinesToShow at hl
  simp only [List.mem_map, List.mem_range] at hl
  obtain ⟨i, _, rfl⟩ := hl
  refine getD_length_le _ cols _ ?_
  intro m hm
  exact gblLoop_width (data.toList.length + 1) data.toList cols _ []
    (by intro x hx; simp at hx) m hm

/-- C3 witness: the first row the layout returns for a concrete two-line
content is at most 20 code points wide. -/
theorem getBufferLinesToShow_row_width_le_witness :
    ((getBufferLinesToShow 3 20 0 ("two short\nlines")).getD 0 []).length ≤ 20 := by
  apply getBufferLinesToShow_row_width_le 3 20 0 ("two short\nlines")
  decide

/-- C5 (code bug): the backward scan looks for a newline only within the
last `cols - 1` runes of the text that remains; when the trailing logical
line is at least that long, the newline goes unnoticed and the WHOLE
remaining text — newline included — is wrapped as one line.  With 3 columns
and content `"a\nbcd"`, the first returned display row is `['a','\n','b']`:
it contains a newline code point, although the claim (and §4.2 step 2 of
the spec, and the comment in the source) promise splitting at every newline
boundary. -/
theorem getBufferLinesToShow_newline_row :
    getBufferLinesToShow 3 3 0 ("a\nbcd") = [['a', '\n', 'b'], ['c', 'd']] ∧
    '\n' ∈ (getBufferLinesToShow 3 3 0 ("a\nbcd")).getD 0 [] := by
  decide

/-- C4: calling the (spec-modelled) two-result layout with a scroll offset
`k` larger than `totalWrappedLines - rows` (the bound read as
`max(0, total - rows)`, which natural subtraction provides) produces an
effective scroll equal to that clamped bound — never `k` — returns the
clamped value as the second result, and returns exactly the last `rows`
wrapped pieces after the clamped offset: since the clamp leaves at most
`rows` pieces below the offset, these are the first `min rows total`
pieces. -/
theorem layoutSpec_scroll_clamp (content : String) (rows cols k : Nat)
    (hrows : 1 ≤ rows)
    (hk : (allPieces content.toList cols).length - rows < k) :
    (layoutSpec content rows cols k).2 = (allPieces content.toList cols).length - rows ∧
    (layoutSpec content rows cols k).2 ≠ k ∧
    (layoutSpec content rows cols k).1 =
      (allPieces content.toList cols).take
        (min rows (allPieces content.toList cols).length) := by
  have hcond : (allPieces content.toList cols).length < rows + k := by omega
  have heff : (layoutSpec content rows cols k).2 =
      (allPieces content.toList cols).length - rows := by
    simp only [layoutSpec, if_pos hcond]
  refine ⟨heff, by omega, ?_⟩
  simp only [layoutSpec, if_pos hcond, List.length_take]
  have h1 : (allPieces content.toList cols).length -
      ((allPieces content.toList cols).length - rows) =
      min rows (allPieces content.toList cols).length := by
    rw [min_def]
    split <;> omega
  rw [h1]
  have h2 : min (min rows (allPieces content.toList cols).length)
      (allPieces content.toList cols).length - rows = 0 := by
    rw [min_def, min_def]
    split <;> [skip; split] <;> omega
  rw [h2, List.drop_zero]

/-- C4 witness: five wrapped pieces, three rows, requested scroll 10 — the
effective scroll is clamped to 2, not 10, and the three oldest pieces are
returned. -/
theorem layoutSpec_scroll_clamp_witness :
    (layoutSpec ("too\nmany\nlines\nto\nshow") 3 20 10).2 = 2 ∧
    (layoutSpec ("too\nmany\nlines\nto\nshow") 3 20 10).2 ≠ 10 ∧
    (layoutSpec ("too\nmany\nlines\nto\nshow") 3 20 10).1 =
      [("too").toList, ("many").toList, ("lines").toList] := by
  have h := layoutSpec_scroll_clamp ("too\nmany\nlines\nto\nshow") 3 20 10
    (by decide) (by decide)
  refine ⟨?_, h.2.1, ?_⟩
  · rw [h.1]
    decide
  · rw [h.2.2]
    decide

end Pipeline
